import Mathlib

/-!
Verification of the table state management, filter/export query building and
auth/export guard logic of `frontend/scripts.js` (modern-data-dashboard).

Modelling conventions:
* JS strings are Lean `String`s; comparisons, lowercasing and substring search
  are carried out on their character lists (`String.data`), which matches the
  UTF-16 code-unit behaviour of JS on the ASCII data this dashboard handles.
* `Array.prototype.sort(cmp)` is stable (ES2019); we embed it as Mathlib's
  stable `List.insertionSort` over the relation `cmp a b ≤ 0`.
* `localeCompare` is embedded as a parameter `lc : String → String → Bool`
  (the "is ≤" form of an arbitrary locale collation); theorems that need it
  assume only that it is reflexive, transitive and total, which holds for any
  real collation.  Concrete witnesses instantiate it with the plain
  lexicographic order `strLe`.
* `fetch` outcomes and response bodies are explicit data so that the
  error-handling paths of the code can be traced faithfully.
-/

namespace Dashboard

/-- Model of `a.startsWith(b)` on character lists: `bsStarts hay needle` is
true when `needle` is an initial segment of `hay`. -/
def bsStarts : List Char → List Char → Bool
  | _, [] => true
  | [], _ :: _ => false
  | c :: cs, d :: ds => c = d && bsStarts cs ds

/-- Model of `String.prototype.includes`: `containsSeq hay needle` is true
when `needle` occurs contiguously inside `hay` (the empty needle always
occurs, as in JS). -/
def containsSeq : List Char → List Char → Bool
  | [], needle => needle.isEmpty
  | c :: t, needle => bsStarts (c :: t) needle || containsSeq t needle

/-- Code-unit lexicographic "less or equal" on character lists; this is the
order used by the default (comparator-less) `Array.prototype.sort` on the
ASCII date strings of this app. -/
def lexLe : List Char → List Char → Bool
  | [], _ => true
  | _ :: _, [] => false
  | a :: as, b :: bs => if a < b then true else if b < a then false else lexLe as bs

/-- Lexicographic "less or equal" on strings, via their character lists. -/
def strLe (a b : String) : Bool := lexLe a.data b.data

/-- Model of `String.prototype.toLowerCase` (ASCII range, which is what
`Char.toLower` lowers and what the dashboard's data uses), producing the
character list of the lowered string. -/
def lowerStr (s : String) : List Char := s.data.map Char.toLower

/-- A detail-table row, as produced by the backend and consumed by
`renderTable`: `{date, product, region, sales, revenue}`.  JS numbers are
modelled as integers (the app's sales/revenue are integral). -/
structure Row where
  date : String
  product : String
  region : String
  sales : Int
  revenue : Int
deriving DecidableEq

/-- String forms of the field values of a row, in the object-literal order
that `Object.values(row)` yields; numbers are rendered the way JS
`String(n)` renders integers. -/
def fieldStrings (r : Row) : List String :=
  [r.date, r.product, r.region, toString r.sales, toString r.revenue]

/-- The predicate of the search handler in `initSearch`: some field of the
row, lowercased, contains the lowercased search term. -/
def rowMatches (term : String) (r : Row) : Bool :=
  (fieldStrings r).any fun v => containsSeq (lowerStr v) (lowerStr term)

/-- The filtering step of `initSearch`:
`fullTableData.filter(row => Object.values(row).some(v =>
String(v).toLowerCase().includes(term)))` with `term` already lowercased. -/
def searchFilter (rows : List Row) (rawTerm : String) : List Row :=
  rows.filter fun r => rowMatches rawTerm r

/-- The five sortable columns of the data table (`th.dataset.key`). -/
inductive SortField
  | date
  | product
  | region
  | sales
  | revenue
deriving DecidableEq

/-- The "is ≤" form of the comparator built in `initTableSorting`:
numeric fields compare by subtraction (`a[key] - b[key]` resp. flipped),
string fields by `localeCompare` (embedded as `lc`), with the direction
selected by `asc`. -/
def keyLe (lc : String → String → Bool) (key : SortField) (asc : Bool) (a b : Row) : Bool :=
  match key with
  | .sales => if asc then decide (a.sales ≤ b.sales) else decide (b.sales ≤ a.sales)
  | .revenue => if asc then decide (a.revenue ≤ b.revenue) else decide (b.revenue ≤ a.revenue)
  | .date => if asc then lc a.date b.date else lc b.date a.date
  | .product => if asc then lc a.product b.product else lc b.product a.product
  | .region => if asc then lc a.region b.region else lc b.region a.region

/-- The sorted copy `[...fullTableData].sort((a,b) => ...)` produced by the
click handler of `initTableSorting`; `Array.prototype.sort` is stable, so it
is embedded as the stable `List.insertionSort`. -/
def sortRows (lc : String → String → Bool) (key : SortField) (asc : Bool)
    (rows : List Row) : List Row :=
  rows.insertionSort fun a b => keyLe lc key asc a b = true

/-- Two rows carry the same value in the sort column `key`. -/
def keyEq (key : SortField) (a b : Row) : Bool :=
  match key with
  | .sales => a.sales = b.sales
  | .revenue => a.revenue = b.revenue
  | .date => a.date = b.date
  | .product => a.product = b.product
  | .region => a.region = b.region

/-- The module-level client state that the table handlers read and write:
`fullTableData`, the per-key `sortDirection` record (an absent key is the JS
`undefined`, i.e. falsy, modelled as `false`), and the row sequence currently
rendered into the table body. -/
structure UIState where
  fullTableData : List Row
  sortDirection : SortField → Bool
  rendered : List Row

/-- User-visible events between two renders: a successful stats fetch
delivering `table_data`, a click on a sortable header, or an input in the
search box. -/
inductive UIEvent
  | fetchSuccess (tableData : List Row)
  | sortClick (key : SortField)
  | searchInput (term : String)

/-- One event-handler turn of `scripts.js`.  Crucially, `renderTable`
assigns its argument to `fullTableData`, so the sort handler and the search
handler both replace the cache with their own output. -/
def step (lc : String → String → Bool) (s : UIState) : UIEvent → UIState
  | .fetchSuccess d => { s with fullTableData := d, rendered := d }
  | .sortClick key =>
    let dir := fun k => if k = key then !(s.sortDirection k) else s.sortDirection k
    let sorted := sortRows lc key (dir key) s.fullTableData
    { fullTableData := sorted, sortDirection := dir, rendered := sorted }
  | .searchInput term =>
    let filtered := searchFilter s.fullTableData term
    { s with fullTableData := filtered, rendered := filtered }

/-- Run a sequence of events from a state. -/
def run (lc : String → String → Bool) (s : UIState) (es : List UIEvent) : UIState :=
  es.foldl (step lc) s

/-- The initial module state: empty table, empty `sortDirection` object. -/
def initState : UIState :=
  { fullTableData := [], sortDirection := fun _ => false, rendered := [] }

/-- The parsed JSON body of a `/api/stats` response.  Every field is
optional because the code never validates the shape: an error body such as
`{error: "..."}` parses fine and then `data.table_data` is `undefined`
(rendered as the empty table by `renderTable(data || [])`). -/
structure StatsData where
  total_sales : Option Int
  total_revenue : Option Int
  table_data : Option (List Row)
  error : Option String
deriving DecidableEq

/-- Outcome of `await fetch(url)` followed by `await res.json()` in
`fetchAndRender`: the transport can fail (`reject`), or resolve with an HTTP
status (`ok`) and a body that either parses as JSON (`some`) or does not
(`none`, making `res.json()` throw). -/
inductive FetchOutcome
  | reject
  | resolve (ok : Bool) (body : Option StatsData)
deriving DecidableEq

/-- The client state that `fetchAndRender` writes: the `currentData` module
variable and the rows rendered into the table. -/
structure FetchState where
  currentData : Option StatsData
  tableRows : List Row
deriving DecidableEq

/-- The state update performed by `fetchAndRender` (lines 64-70 of
`scripts.js`).  The code never consults `res.ok`: as soon as the body parses
as JSON it runs `currentData = data; ...; renderTable(data.table_data)`,
HTTP status notwithstanding.  A transport failure or a JSON parse failure
throws before any assignment, leaving the state untouched. -/
def fetchAndRenderStep (s : FetchState) : FetchOutcome → FetchState
  | .reject => s
  | .resolve _ none => s
  | .resolve _ (some d) => { currentData := some d, tableRows := d.table_data.getD [] }

/-- The preset branch of `applyFiltersAndRender` (lines 124-137): for
`last-3-days` / `last-5-days` it sorts the raw date strings with the default
`Array.prototype.sort()` (code-unit lexicographic, stable — duplicates are
kept), slices off the last 3 resp. 5 entries, and uses the first and last of
that slice as the effective start/end dates.  An empty date list makes the
handler return without touching anything (`none` here). -/
def applyPresetRange (preset : String) (dates : List String) : Option (String × String) :=
  if preset = "last-3-days" ∨ preset = "last-5-days" then
    let sorted := dates.insertionSort fun a b => strLe a b = true
    if sorted.isEmpty then none
    else
      let count : Nat := if preset = "last-3-days" then 3 else 5
      let lastDates := sorted.drop (sorted.length - count)
      match lastDates.head?, lastDates.getLast? with
      | some s, some e => some (s, e)
      | _, _ => none
  else none

/-- The range computation as the claim words it: take the `n`
lexicographically-largest DISTINCT date strings and return their minimum and
maximum.  This definition follows the claim, not the code; it exists to be
compared against `applyPresetRange`. -/
def claimPresetRange (n : Nat) (dates : List String) : Option (String × String) :=
  let distinctSorted := (dates.dedup).insertionSort fun a b => strLe a b = true
  if distinctSorted.isEmpty then none
  else
    let lastDates := distinctSorted.drop (distinctSorted.length - n)
    match lastDates.head?, lastDates.getLast? with
    | some s, some e => some (s, e)
    | _, _ => none

/-- An HTTP request issued by one of the client operations, identified by
enough of its content to state the claims. -/
inductive Request
  | getStats (query : List (String × String))
  | getExport (format : String) (query : List (String × String))
  | postPdf (charts : String × String × String) (summaryTexts : String × String)
  | postSchedule (auth : String) (targetEmail : String)
      (region product startDate endDate : Option String) (freq : String)
  | postAuth (url : String) (email password : String)
deriving DecidableEq

/-- Client state read by `exportPDF` and `scheduleEmail`: the three chart
module variables (`none` = not yet rendered, i.e. falsy), the stored bearer
token, and the summary-card texts that `exportPDF` scrapes from the DOM. -/
structure ClientState where
  dailySalesChart : Option String
  productChart : Option String
  regionChart : Option String
  token : Option String
  totalSalesText : String
  totalRevenueText : String
deriving DecidableEq

/-- The `exportPDF` handler (lines 211-226): if any chart module variable is
still unset it alerts "Charts not ready" and returns; otherwise it posts the
three chart images and the summary scraped from the cards.  Result:
(alerts shown, requests issued, state afterwards). -/
def exportPDF (s : ClientState) : List String × List Request × ClientState :=
  match s.dailySalesChart, s.productChart, s.regionChart with
  | some c1, some c2, some c3 =>
    ([], [.postPdf (c1, c2, c3) (s.totalSalesText, s.totalRevenueText)], s)
  | _, _, _ => (["Charts not ready"], [], s)

/-- The `scheduleEmail` handler (lines 268-277) up to issuing its request:
without a token it alerts and stops; with an empty target (input empty and
prompt cancelled or empty) it alerts and stops; otherwise it posts the
schedule request with `"" `-valued filters sent as `null` (`x || null`).
`promptResult` is what `prompt` would return when the input field is empty
(`none` models pressing cancel). -/
def scheduleEmail (s : ClientState) (schedTarget : String) (promptResult : Option String)
    (region product startDate endDate : String) :
    List String × List Request × ClientState :=
  match s.token with
  | none => (["Please login/register first."], [], s)
  | some tk =>
    let target := if schedTarget ≠ "" then schedTarget else promptResult.getD ""
    if target = "" then (["Target email required."], [], s)
    else
      let toOpt := fun (v : String) => if v = "" then none else some v
      ([], [.postSchedule ("Bearer " ++ tk) target (toOpt region) (toOpt product)
        (toOpt startDate) (toOpt endDate) "weekly"], s)

/-- Model of `URLSearchParams.prototype.set`: replace the value of an
existing key, else append the pair. -/
def setParam (ps : List (String × String)) (k v : String) : List (String × String) :=
  if ps.any fun kv => kv.1 = k then
    ps.map fun kv => if kv.1 = k then (k, v) else kv
  else ps ++ [(k, v)]

/-- Conditionally append one query pair, as `if (x) params.append(k, x)`
does (the empty string is falsy in JS). -/
def appendIf (ps : List (String × String)) (k v : String) : List (String × String) :=
  if v ≠ "" then ps ++ [(k, v)] else ps

/-- The query `fetchAndRender` builds for `/api/stats` (lines 49-62):
start_date, end_date, region, product appended in that order when non-empty,
then the explicit `filters` argument overriding region/product via
`params.set` when present and truthy. -/
def statsQuery (startDate endDate region product : String)
    (fRegion fProduct : Option String) : List (String × String) :=
  let ps : List (String × String) := []
  let ps := appendIf ps "start_date" startDate
  let ps := appendIf ps "end_date" endDate
  let ps := appendIf ps "region" region
  let ps := appendIf ps "product" product
  let ps := match fRegion with
    | some v => if v ≠ "" then setParam ps "region" v else ps
    | none => ps
  match fProduct with
  | some v => if v ≠ "" then setParam ps "product" v else ps
  | none => ps

/-- The query `exportData` builds for `/api/export/{format}` (lines
192-202): region, product, start_date, end_date appended in that order when
non-empty. -/
def exportQuery (region product startDate endDate : String) : List (String × String) :=
  let ps : List (String × String) := []
  let ps := appendIf ps "region" region
  let ps := appendIf ps "product" product
  let ps := appendIf ps "start_date" startDate
  appendIf ps "end_date" endDate

/-- Credential state touched by register/login: the `token` module variable
and the `dashboard_token` localStorage entry. -/
structure AuthState where
  token : Option String
  storedToken : Option String
deriving DecidableEq

/-- Parsed JSON body of a register/login response: `{token}` or `{error}`,
either field possibly absent. -/
structure AuthBody where
  token : Option String
  error : Option String
deriving DecidableEq

/-- Outcome of the auth fetch: transport failure, or a response with an HTTP
status and a body that does or does not parse as JSON. -/
inductive AuthOutcome
  | reject
  | resolve (ok : Bool) (body : Option AuthBody)
deriving DecidableEq

/-- Whether the outcome is a 2xx response with a JSON body — the only case
in which the code reaches the `token = data.token` assignment. -/
def isOkWithBody : AuthOutcome → Bool
  | .resolve true (some _) => true
  | _ => false

/-- What `localStorage.setItem("dashboard_token", token)` stores: `setItem`
stringifies its argument, so a missing `data.token` is stored as the literal
string "undefined". -/
def storedOf (tk : Option String) : Option String :=
  match tk with
  | some t => some t
  | none => some "undefined"

/-- The `registerUser` handler (lines 235-249): empty email or password
alerts and stops before any request; otherwise it posts, and only a 2xx
response with a JSON body reaches the token/localStorage assignments.
Result: (requests issued, alerts shown, credential state afterwards). -/
def registerUser (s : AuthState) (email password : String) (outcome : AuthOutcome) :
    List Request × List String × AuthState :=
  if email = "" ∨ password = "" then ([], ["Email & password required"], s)
  else
    let req := Request.postAuth "/api/register" email password
    match outcome with
    | .reject => ([req], [], s)
    | .resolve _ none => ([req], [], s)
    | .resolve true (some b) =>
      ([req], ["Registered & logged in"], { token := b.token, storedToken := storedOf b.token })
    | .resolve false (some b) =>
      ([req], [b.error.getD "Registration failed"], s)

/-- The `loginUser` handler (lines 251-265), identical to `registerUser` up
to URL and messages. -/
def loginUser (s : AuthState) (email password : String) (outcome : AuthOutcome) :
    List Request × List String × AuthState :=
  if email = "" ∨ password = "" then ([], ["Email & password required"], s)
  else
    let req := Request.postAuth "/api/login" email password
    match outcome with
    | .reject => ([req], [], s)
    | .resolve _ none => ([req], [], s)
    | .resolve true (some b) =>
      ([req], ["Logged in"], { token := b.token, storedToken := storedOf b.token })
    | .resolve false (some b) =>
      ([req], [b.error.getD "Login failed"], s)

/-- Sample row used by concrete witnesses (the spec's scenario row 1). -/
def rowA : Row := { date := "2024-01-01", product := "A", region := "North", sales := 10, revenue := 100 }

/-- Sample row used by concrete witnesses (the spec's scenario row 2). -/
def rowB : Row := { date := "2024-01-02", product := "B", region := "South", sales := 5, revenue := 50 }

/-! ### Order-theoretic facts about the embedded comparators -/

theorem lexLe_refl : ∀ a, lexLe a a = true
  | [] => rfl
  | c :: cs => by simp [lexLe, lexLe_refl cs]

theorem lexLe_total : ∀ a b, lexLe a b = true ∨ lexLe b a = true
  | [], _ => Or.inl rfl
  | _ :: _, [] => Or.inr rfl
  | a :: as, b :: bs => by
    rcases lt_trichotomy a b with h | h | h
    · left; simp [lexLe, h]
    · subst h
      rcases lexLe_total as bs with ih | ih
      · left; simp [lexLe, ih]
      · right; simp [lexLe, ih]
    · right; simp [lexLe, h]

theorem lexLe_trans : ∀ a b c, lexLe a b = true → lexLe b c = true → lexLe a c = true
  | [], _, _, _, _ => rfl
  | _ :: _, [], _, hab, _ => by simp [lexLe] at hab
  | _ :: _, _ :: _, [], _, hbc => by simp [lexLe] at hbc
  | a :: as, b :: bs, c :: cs, hab, hbc => by
    simp only [lexLe] at hab hbc ⊢
    rcases lt_trichotomy a b with h1 | h1 | h1
    · rcases lt_trichotomy b c with h2 | h2 | h2
      · simp [lt_trans h1 h2]
      · subst h2; simp [h1]
      · rw [if_neg (lt_asymm h2), if_pos h2] at hbc
        exact Bool.noConfusion hbc
    · subst h1
      have hab' : lexLe as bs = true := by simpa [lt_irrefl] using hab
      rcases lt_trichotomy a c with h2 | h2 | h2
      · simp [h2]
      · subst h2
        have hbc' : lexLe bs cs = true := by simpa [lt_irrefl] using hbc
        simp [lt_irrefl, lexLe_trans as bs cs hab' hbc']
      · rw [if_neg (lt_asymm h2), if_pos h2] at hbc
        exact Bool.noConfusion hbc
    · rw [if_neg (lt_asymm h1), if_pos h1] at hab
      exact Bool.noConfusion hab

theorem strLe_refl (a : String) : strLe a a = true := lexLe_refl a.data

theorem strLe_total (a b : String) : strLe a b = true ∨ strLe b a = true :=
  lexLe_total a.data b.data

theorem strLe_trans (a b c : String) :
    strLe a b = true → strLe b c = true → strLe a c = true :=
  lexLe_trans a.data b.data c.data

theorem keyLe_trans (lc : String → String → Bool)
    (hT : ∀ x y z, lc x y = true → lc y z = true → lc x z = true)
    (key : SortField) (asc : Bool) (a b c : Row) :
    keyLe lc key asc a b = true → keyLe lc key asc b c = true →
    keyLe lc key asc a c = true := by
  intro hab hbc
  cases key <;> cases asc <;> simp [keyLe] at hab hbc ⊢ <;>
    first
      | exact hT _ _ _ hab hbc
      | exact hT _ _ _ hbc hab
      | omega

theorem keyLe_total (lc : String → String → Bool)
    (hTot : ∀ x y, lc x y = true ∨ lc y x = true)
    (key : SortField) (asc : Bool) (a b : Row) :
    keyLe lc key asc a b = true ∨ keyLe lc key asc b a = true := by
  cases key <;> cases asc <;> simp [keyLe] <;>
    first
      | exact hTot _ _
      | exact (hTot _ _).symm
      | omega

theorem keyLe_of_keyEq (lc : String → String → Bool)
    (hR : ∀ x, lc x x = true)
    (key : SortField) (asc : Bool) (a b : Row) (h : keyEq key a b = true) :
    keyLe lc key asc a b = true := by
  cases key <;> cases asc <;>
    simp only [keyEq, decide_eq_true_eq] at h <;>
    simp [keyLe, h, hR]

/-- Stability of the embedded sort, in filter form: filtering the sorted
list by any predicate whose rows are pairwise related leaves exactly the
same subsequence as filtering the input. -/
theorem filter_insertionSort_eq {α : Type _} (r : α → α → Prop) [DecidableRel r]
    (p : α → Bool) (hp : ∀ a b, p a = true → p b = true → r a b) (l : List α) :
    (List.insertionSort r l).filter p = l.filter p := by
  have hpair : (l.filter p).Pairwise r :=
    List.pairwise_of_forall_mem_list fun a ha b hb =>
      hp a b (List.of_mem_filter ha) (List.of_mem_filter hb)
  have hsub : List.Sublist (l.filter p) (List.insertionSort r l) :=
    List.sublist_insertionSort hpair (List.filter_sublist l)
  have hsub2 : List.Sublist (l.filter p) ((List.insertionSort r l).filter p) := by
    have h2 := hsub.filter p
    rw [List.filter_filter] at h2
    simpa only [Bool.and_self] using h2
  have hperm : List.Perm ((List.insertionSort r l).filter p) (l.filter p) :=
    (List.perm_insertionSort r l).filter p
  exact (hsub2.eq_of_length hperm.length_eq.symm).symm

theorem pairwise_head_rel {α : Type _} {r : α → α → Prop} (hrefl : ∀ a, r a a)
    (x : α) (t : List α) (hp : (x :: t).Pairwise r) : ∀ y ∈ x :: t, r x y := by
  intro y hy
  rcases List.mem_cons.mp hy with rfl | hy2
  · exact hrefl y
  · exact List.rel_of_pairwise_cons hp hy2

theorem pairwise_rel_getLast {α : Type _} {r : α → α → Prop} (hrefl : ∀ a, r a a) :
    ∀ (l : List α) (hne : l ≠ []), l.Pairwise r → ∀ y ∈ l, r y (l.getLast hne)
  | [], hne, _, _, _ => absurd rfl hne
  | [x], _, _, y, hy => by
    simp only [List.mem_singleton] at hy
    subst hy
    exact hrefl y
  | x :: z :: t, _, hp, y, hy => by
    rw [List.getLast_cons (by simp)]
    rcases List.mem_cons.mp hy with rfl | hy2
    · exact List.rel_of_pairwise_cons hp (List.getLast_mem (by simp))
    · exact pairwise_rel_getLast hrefl (z :: t) (by simp) hp.of_cons y hy2

theorem pairwise_sales_strict_of_nodup (l : List Row)
    (hnd : (l.map Row.sales).Nodup)
    (hp : l.Pairwise fun a b => b.sales ≤ a.sales) :
    l.Pairwise fun a b => b.sales < a.sales := by
  have hne : l.Pairwise fun a b => a.sales ≠ b.sales := List.pairwise_map.mp hnd
  exact (hp.and hne).imp fun h => lt_of_le_of_ne h.1 fun e => h.2 e.symm

theorem keyEq_trans_left (key : SortField) (a x y : Row)
    (h1 : keyEq key a x = true) (h2 : keyEq key a y = true) : keyEq key x y = true := by
  cases key <;> simp only [keyEq, decide_eq_true_eq] at h1 h2 ⊢ <;>
    first
      | omega
      | exact h1 ▸ h2

/-! ### Claim theorems -/

/-- C1, counterexample: `fetchAndRender` does NOT leave the Dataset Cache
unchanged on every failed fetch.  On a non-2xx response whose body parses as
JSON (here a typical `{error: ...}` body), the code still runs
`currentData = data; renderTable(data.table_data)`, overwriting the cache
and blanking the previously rendered rows. -/
theorem fetchAndRender_overwrites_on_http_error :
    fetchAndRenderStep ⟨none, [rowA]⟩
        (.resolve false (some ⟨none, none, none, some "Internal Server Error"⟩))
      ≠ (⟨none, [rowA]⟩ : FetchState) ∧
    (fetchAndRenderStep ⟨none, [rowA]⟩
        (.resolve false (some ⟨none, none, none, some "Internal Server Error"⟩))).tableRows
      = [] := by
  exact ⟨by decide, by decide⟩

/-- C1, amended: the Dataset Cache and rendered rows survive a transport
failure or a body that fails to parse as JSON, but any response whose body
parses as JSON — the HTTP status is never checked — overwrites
`currentData` and re-renders the table from `data.table_data`. -/
theorem fetchAndRender_failure_semantics :
    ∀ (s : FetchState) (ok : Bool) (d : StatsData),
      fetchAndRenderStep s .reject = s ∧
      fetchAndRenderStep s (.resolve ok none) = s ∧
      (fetchAndRenderStep s (.resolve ok (some d))).currentData = some d := by
  intro s ok d
  exact ⟨rfl, rfl, rfl⟩

/-- C4: for a non-empty search term the filter keeps exactly the rows in
which the lowercased string form of some field contains the lowercased
term, preserves relative order (the result is a sublist of the input), and
is idempotent. -/
theorem searchFilter_spec :
    ∀ (rows : List Row) (term : String), term ≠ "" →
      List.Sublist (searchFilter rows term) rows ∧
      (∀ r, r ∈ searchFilter rows term ↔
        r ∈ rows ∧ ∃ v ∈ fieldStrings r, containsSeq (lowerStr v) (lowerStr term) = true) ∧
      searchFilter (searchFilter rows term) term = searchFilter rows term := by
  intro rows term _
  refine ⟨List.filter_sublist rows, ?_, ?_⟩
  · intro r
    simp [searchFilter, List.mem_filter, rowMatches, List.any_eq_true]
  · simp [searchFilter, List.filter_filter]

/-- C4 witness: the spec's scenario — searching "north" over the two sample
rows. -/
theorem searchFilter_spec_witness :
    ("north" : String) ≠ "" ∧
    List.Sublist (searchFilter [rowA, rowB] "north") [rowA, rowB] ∧
    (rowA ∈ searchFilter [rowA, rowB] "north" ↔
      rowA ∈ [rowA, rowB] ∧
        ∃ v ∈ fieldStrings rowA, containsSeq (lowerStr v) (lowerStr "north") = true) ∧
    searchFilter (searchFilter [rowA, rowB] "north") "north" = searchFilter [rowA, rowB] "north" :=
  ⟨by decide,
   (searchFilter_spec [rowA, rowB] "north" (by decide)).1,
   (searchFilter_spec [rowA, rowB] "north" (by decide)).2.1 rowA,
   (searchFilter_spec [rowA, rowB] "north" (by decide)).2.2⟩

/-- C8: with a missing precondition — a chart module variable still unset
for `exportPDF`, or no stored token for `scheduleEmail` — the operation
only shows the blocking alert, issues no request and leaves the client
state unchanged. -/
theorem missing_precondition_guards :
    (∀ s : ClientState,
        s.dailySalesChart = none ∨ s.productChart = none ∨ s.regionChart = none →
        exportPDF s = (["Charts not ready"], [], s)) ∧
    (∀ (s : ClientState) (target : String) (pr : Option String) (rg pd sd ed : String),
        s.token = none →
        scheduleEmail s target pr rg pd sd ed = (["Please login/register first."], [], s)) := by
  constructor
  · intro s h
    rcases h1 : s.dailySalesChart with _ | c1 <;>
      rcases h2 : s.productChart with _ | c2 <;>
        rcases h3 : s.regionChart with _ | c3 <;>
          simp_all [exportPDF]
  · intro s target pr rg pd sd ed h
    simp [scheduleEmail, h]

/-- C8 witness: a state with a missing chart, and a state with no token. -/
theorem missing_precondition_guards_witness :
    exportPDF ⟨none, some "p", some "r", some "tok", "1", "$2"⟩
      = (["Charts not ready"], [], ⟨none, some "p", some "r", some "tok", "1", "$2"⟩) ∧
    scheduleEmail ⟨some "a", some "b", some "c", none, "1", "$2"⟩ "u@v" none "" "" "" ""
      = (["Please login/register first."], [], ⟨some "a", some "b", some "c", none, "1", "$2"⟩) :=
  ⟨missing_precondition_guards.1 _ (Or.inl rfl),
   missing_precondition_guards.2 _ "u@v" none "" "" "" "" rfl⟩

/-- C10: register/login issue no request when email or password is empty,
and the in-memory token and the persisted `dashboard_token` entry are
untouched unless the outcome is a 2xx response with a JSON body. -/
theorem auth_guard_and_atomicity :
    ∀ (s : AuthState) (email password : String) (o : AuthOutcome),
      ((email = "" ∨ password = "") →
        (registerUser s email password o).1 = [] ∧
        (registerUser s email password o).2.2 = s ∧
        (loginUser s email password o).1 = [] ∧
        (loginUser s email password o).2.2 = s) ∧
      (isOkWithBody o = false →
        (registerUser s email password o).2.2 = s ∧
        (loginUser s email password o).2.2 = s) := by
  intro s email password o
  constructor
  · intro h
    simp [registerUser, loginUser, if_pos h]
  · intro h
    by_cases he : email = "" ∨ password = ""
    · simp [registerUser, loginUser, if_pos he]
    · cases o with
      | reject => simp [registerUser, loginUser, he]
      | resolve ok body =>
        cases body with
        | none => simp [registerUser, loginUser, he]
        | some b =>
          cases ok with
          | false => simp [registerUser, loginUser, he]
          | true => simp [isOkWithBody] at h

/-- C10 witness: an empty email blocks the request, and a 401-style error
response leaves the credential state alone. -/
theorem auth_guard_and_atomicity_witness :
    ((registerUser ⟨some "old", some "old"⟩ "" "pw" .reject).1 = [] ∧
      (registerUser ⟨some "old", some "old"⟩ "" "pw" .reject).2.2 = ⟨some "old", some "old"⟩ ∧
      (loginUser ⟨some "old", some "old"⟩ "" "pw" .reject).1 = [] ∧
      (loginUser ⟨some "old", some "old"⟩ "" "pw" .reject).2.2 = ⟨some "old", some "old"⟩) ∧
    ((registerUser ⟨some "old", some "old"⟩ "e@x" "pw"
        (.resolve false (some ⟨none, some "bad credentials"⟩))).2.2 = ⟨some "old", some "old"⟩ ∧
      (loginUser ⟨some "old", some "old"⟩ "e@x" "pw"
        (.resolve false (some ⟨none, some "bad credentials"⟩))).2.2 = ⟨some "old", some "old"⟩) :=
  ⟨(auth_guard_and_atomicity ⟨some "old", some "old"⟩ "" "pw" .reject).1 (Or.inl rfl),
   (auth_guard_and_atomicity ⟨some "old", some "old"⟩ "e@x" "pw"
      (.resolve false (some ⟨none, some "bad credentials"⟩))).2 (by decide)⟩

/-- C2, counterexample: the rendered row sequence is NOT a pure function of
(last fetched dataset, current sort key, current search term).  Two
interaction histories over the same fetched dataset, ending with the same
sort state and the same (empty) search term, render different row
sequences, because the search handler overwrote `fullTableData` with its
filtered output and clearing the term filters that remnant, not the
dataset. -/
theorem rendered_depends_on_interaction_history :
    (run strLe initState
        [.fetchSuccess [rowA, rowB], .searchInput "north", .searchInput ""]).sortDirection
      = (run strLe initState [.fetchSuccess [rowA, rowB], .searchInput ""]).sortDirection ∧
    (run strLe initState
        [.fetchSuccess [rowA, rowB], .searchInput "north", .searchInput ""]).rendered
      = [rowA] ∧
    (run strLe initState [.fetchSuccess [rowA, rowB], .searchInput ""]).rendered
      = [rowA, rowB] ∧
    (run strLe initState
        [.fetchSuccess [rowA, rowB], .searchInput "north", .searchInput ""]).rendered
      ≠ (run strLe initState [.fetchSuccess [rowA, rowB], .searchInput ""]).rendered :=
  ⟨rfl, by decide, by decide, by decide⟩

/-- C2, amended: the rendered sequence always equals the current
`fullTableData` cache and each handler turn is a pure function of that
cache, the `sortDirection` record and the event — but because every render
replaces the cache with its output, the result depends on the whole history
of sort/search interactions since the last fetch.  Rows themselves are
never mutated: sort and search only reorder or drop rows of the previous
cache. -/
theorem step_render_contract :
    ∀ (lc : String → String → Bool) (s s' : UIState) (e : UIEvent),
      ((step lc s e).rendered = (step lc s e).fullTableData) ∧
      (s.fullTableData = s'.fullTableData → s.sortDirection = s'.sortDirection →
        (step lc s e).rendered = (step lc s' e).rendered) ∧
      (∀ key, ∀ r ∈ (step lc s (.sortClick key)).rendered, r ∈ s.fullTableData) ∧
      (∀ term, ∀ r ∈ (step lc s (.searchInput term)).rendered, r ∈ s.fullTableData) := by
  intro lc s s' e
  refine ⟨?_, ?_, ?_, ?_⟩
  · cases e <;> rfl
  · intro h1 h2
    cases e <;> simp [step, h1, h2]
  · intro key r hr
    have hr2 : r ∈ sortRows lc key
        (if key = key then !s.sortDirection key else s.sortDirection key)
        s.fullTableData := hr
    exact ((List.perm_insertionSort _ _).mem_iff).mp hr2
  · intro term r hr
    exact List.mem_of_mem_filter hr

/-- C2 amended witness: concrete instances of the render/cache agreement,
the locality of a search step, and element preservation under a sort click
and a search. -/
theorem step_render_contract_witness :
    ((step strLe (run strLe initState [.fetchSuccess [rowA, rowB]])
        (.sortClick .sales)).rendered
      = (step strLe (run strLe initState [.fetchSuccess [rowA, rowB]])
        (.sortClick .sales)).fullTableData) ∧
    ((step strLe (UIState.mk [rowA, rowB] (fun _ => false) [rowA, rowB])
        (.searchInput "north")).rendered
      = (step strLe (UIState.mk [rowA, rowB] (fun _ => false) [])
        (.searchInput "north")).rendered) ∧
    rowB ∈ (run strLe initState [.fetchSuccess [rowA, rowB]]).fullTableData ∧
    rowA ∈ (run strLe initState [.fetchSuccess [rowA, rowB]]).fullTableData :=
  ⟨(step_render_contract strLe (run strLe initState [.fetchSuccess [rowA, rowB]])
      (run strLe initState [.fetchSuccess [rowA, rowB]]) (.sortClick .sales)).1,
   (step_render_contract strLe (UIState.mk [rowA, rowB] (fun _ => false) [rowA, rowB])
      (UIState.mk [rowA, rowB] (fun _ => false) []) (.searchInput "north")).2.1 rfl rfl,
   (step_render_contract strLe (run strLe initState [.fetchSuccess [rowA, rowB]])
      (run strLe initState [.fetchSuccess [rowA, rowB]]) (.sortClick .sales)).2.2.1
      .sales rowB (by decide),
   (step_render_contract strLe (run strLe initState [.fetchSuccess [rowA, rowB]])
      (run strLe initState [.fetchSuccess [rowA, rowB]]) (.searchInput "north")).2.2.2
      "north" rowA (by decide)⟩

/-- C3, counterexample: the preset range is NOT computed from the distinct
date strings.  With a duplicated maximal date, the code's slice of the last
3 sorted dates (duplicates kept) yields start = end = "2024-01-05", while
the claim's "3 largest distinct dates" rule would give start
"2024-01-01". -/
theorem applyPresetRange_keeps_duplicate_dates :
    applyPresetRange "last-3-days" ["2024-01-01", "2024-01-05", "2024-01-05", "2024-01-05"]
      = some ("2024-01-05", "2024-01-05") ∧
    claimPresetRange 3 ["2024-01-01", "2024-01-05", "2024-01-05", "2024-01-05"]
      = some ("2024-01-01", "2024-01-05") ∧
    applyPresetRange "last-3-days" ["2024-01-01", "2024-01-05", "2024-01-05", "2024-01-05"]
      ≠ claimPresetRange 3 ["2024-01-01", "2024-01-05", "2024-01-05", "2024-01-05"] :=
  ⟨by decide, by decide, by decide⟩

theorem sorted_last_slice (n : Nat) (hn : 0 < n) (dates : List String) (hne : dates ≠ []) :
    ∃ s e rest lastN,
      ((dates.insertionSort fun a b => strLe a b = true).drop
        ((dates.insertionSort fun a b => strLe a b = true).length - n)) = lastN ∧
      lastN.head? = some s ∧ lastN.getLast? = some e ∧
      List.Perm dates (rest ++ lastN) ∧
      lastN.length = min n dates.length ∧
      (∀ x ∈ rest, ∀ y ∈ lastN, strLe x y = true) ∧
      s ∈ lastN ∧ (∀ y ∈ lastN, strLe s y = true) ∧
      e ∈ lastN ∧ (∀ y ∈ lastN, strLe y e = true) := by
  haveI : IsTotal String fun a b => strLe a b = true := ⟨strLe_total⟩
  haveI : IsTrans String fun a b => strLe a b = true := ⟨strLe_trans⟩
  set sorted := dates.insertionSort fun a b => strLe a b = true with hsorted_def
  have hperm : List.Perm sorted dates := List.perm_insertionSort _ dates
  have hpw : sorted.Pairwise fun a b => strLe a b = true :=
    List.sorted_insertionSort _ dates
  have hlen : sorted.length = dates.length := hperm.length_eq
  have hdlen : 0 < dates.length := List.length_pos.mpr hne
  set lastN := sorted.drop (sorted.length - n) with hlastN
  set rest := sorted.take (sorted.length - n) with hrest
  have hsplit : rest ++ lastN = sorted := List.take_append_drop _ _
  have hlenN : lastN.length = min n dates.length := by
    rw [hlastN, List.length_drop]
    omega
  have hNne : lastN ≠ [] := by
    have hpos : 0 < lastN.length := by rw [hlenN]; omega
    exact List.ne_nil_of_length_pos hpos
  obtain ⟨hd, tl, hcons⟩ := List.exists_cons_of_ne_nil hNne
  have hpw2 : (rest ++ lastN).Pairwise fun a b => strLe a b = true := by
    rw [hsplit]; exact hpw
  have hcross := (List.pairwise_append.mp hpw2).2.2
  have hpwN : lastN.Pairwise fun a b => strLe a b = true :=
    (List.pairwise_append.mp hpw2).2.1
  refine ⟨hd, lastN.getLast hNne, rest, lastN, rfl, ?_, ?_, ?_, hlenN, hcross, ?_, ?_, ?_, ?_⟩
  · rw [hcons]; rfl
  · exact List.getLast?_eq_getLast _ hNne
  · rw [hsplit]; exact hperm.symm
  · rw [hcons]; exact List.mem_cons_self _ _
  · intro y hy
    rw [hcons] at hpwN hy
    exact pairwise_head_rel strLe_refl hd tl hpwN y hy
  · exact List.getLast_mem hNne
  · intro y hy
    exact pairwise_rel_getLast strLe_refl lastN hNne hpwN y hy

/-- C3, amended: for a non-empty date list, the preset takes the `n` (3 or
5) lexicographically-largest date strings counted WITH multiplicity — the
tail slice of the stably sorted full date list — and uses that slice's
minimum as start and maximum as end; in particular the spec's concrete
example (all dates distinct) yields start "2024-01-02", end "2024-01-05".
Formally: the date multiset splits into `rest ++ lastN` with every `rest`
element ≤ every `lastN` element, `lastN` of size `min n |dates|`, and the
computed start/end are a lower resp. upper bound of `lastN` belonging to
it. -/
theorem applyPresetRange_spec :
    (∀ (preset : String) (n : Nat) (dates : List String), dates ≠ [] →
      (preset = "last-3-days" ∧ n = 3) ∨ (preset = "last-5-days" ∧ n = 5) →
      ∃ s e rest lastN,
        applyPresetRange preset dates = some (s, e) ∧
        List.Perm dates (rest ++ lastN) ∧
        lastN.length = min n dates.length ∧
        (∀ x ∈ rest, ∀ y ∈ lastN, strLe x y = true) ∧
        s ∈ lastN ∧ (∀ y ∈ lastN, strLe s y = true) ∧
        e ∈ lastN ∧ (∀ y ∈ lastN, strLe y e = true)) ∧
    applyPresetRange "last-3-days" ["2024-01-01", "2024-01-02", "2024-01-03", "2024-01-05"]
      = some ("2024-01-02", "2024-01-05") := by
  constructor
  · intro preset n dates hne hp
    have hn : 0 < n := by rcases hp with ⟨_, rfl⟩ | ⟨_, rfl⟩ <;> omega
    obtain ⟨s, e, rest, lastN, hdrop, hhead, hlast, hperm, hlen, hcross,
      hsmem, hslb, hemem, heub⟩ := sorted_last_slice n hn dates hne
    refine ⟨s, e, rest, lastN, ?_, hperm, hlen, hcross, hsmem, hslb, hemem, heub⟩
    have hcond : preset = "last-3-days" ∨ preset = "last-5-days" := by
      rcases hp with ⟨h, _⟩ | ⟨h, _⟩
      · exact Or.inl h
      · exact Or.inr h
    have hsne : ¬ (dates.insertionSort fun a b => strLe a b = true).isEmpty = true := by
      intro habs
      rw [List.isEmpty_iff] at habs
      have h0 := (List.perm_insertionSort (fun a b => strLe a b = true) dates).length_eq
      rw [habs] at h0
      have hdlen : 0 < dates.length := List.length_pos.mpr hne
      simp at h0
      omega
    have hcount : (if preset = "last-3-days" then (3 : Nat) else 5) = n := by
      rcases hp with ⟨h3, rfl⟩ | ⟨h5, rfl⟩
      · rw [if_pos h3]
      · subst h5
        rw [if_neg (by decide)]
    simp only [applyPresetRange]
    rw [if_pos hcond, if_neg hsne, hcount, hdrop, hhead, hlast]
  · decide

/-- C3 amended witness: the spec's concrete example, through the general
characterization. -/
theorem applyPresetRange_spec_witness :
    (["2024-01-01", "2024-01-02", "2024-01-03", "2024-01-05"] : List String) ≠ [] ∧
    (∃ s e rest lastN,
      applyPresetRange "last-3-days" ["2024-01-01", "2024-01-02", "2024-01-03", "2024-01-05"]
        = some (s, e) ∧
      List.Perm ["2024-01-01", "2024-01-02", "2024-01-03", "2024-01-05"] (rest ++ lastN) ∧
      lastN.length
        = min 3 (["2024-01-01", "2024-01-02", "2024-01-03", "2024-01-05"] : List String).length ∧
      (∀ x ∈ rest, ∀ y ∈ lastN, strLe x y = true) ∧
      s ∈ lastN ∧ (∀ y ∈ lastN, strLe s y = true) ∧
      e ∈ lastN ∧ (∀ y ∈ lastN, strLe y e = true)) :=
  ⟨by decide,
   applyPresetRange_spec.1 "last-3-days" 3
     ["2024-01-01", "2024-01-02", "2024-01-03", "2024-01-05"] (by decide)
     (Or.inl ⟨rfl, rfl⟩)⟩

/-- C5: the click-handler sort permutes the cached rows, orders them by the
selected column — numerically for `sales`/`revenue`, by the (locale)
string order `lc` for `date`/`product`/`region`, ascending or descending
per the direction — and is stable: rows with an equal value in the sort
column keep their relative input order (their filtered subsequences
coincide).  `lc` is any reflexive, transitive, total comparison, which
every `localeCompare` collation satisfies. -/
theorem sortRows_spec :
    ∀ (lc : String → String → Bool),
      (∀ x, lc x x = true) →
      (∀ x y z, lc x y = true → lc y z = true → lc x z = true) →
      (∀ x y, lc x y = true ∨ lc y x = true) →
      ∀ (key : SortField) (asc : Bool) (rows : List Row),
        List.Perm (sortRows lc key asc rows) rows ∧
        (sortRows lc key asc rows).Pairwise (fun a b =>
          match key with
          | SortField.sales => if asc then a.sales ≤ b.sales else b.sales ≤ a.sales
          | SortField.revenue => if asc then a.revenue ≤ b.revenue else b.revenue ≤ a.revenue
          | SortField.date => if asc then lc a.date b.date = true else lc b.date a.date = true
          | SortField.product =>
            if asc then lc a.product b.product = true else lc b.product a.product = true
          | SortField.region =>
            if asc then lc a.region b.region = true else lc b.region a.region = true) ∧
        (∀ a : Row, (sortRows lc key asc rows).filter (keyEq key a)
          = rows.filter (keyEq key a)) := by
  intro lc hR hT hTot key asc rows
  haveI : IsTotal Row fun a b => keyLe lc key asc a b = true := ⟨keyLe_total lc hTot key asc⟩
  haveI : IsTrans Row fun a b => keyLe lc key asc a b = true := ⟨keyLe_trans lc hT key asc⟩
  refine ⟨List.perm_insertionSort _ rows, ?_, ?_⟩
  · have hs : (sortRows lc key asc rows).Pairwise fun a b => keyLe lc key asc a b = true :=
      List.sorted_insertionSort _ rows
    refine hs.imp ?_
    intro a b h
    cases key <;> cases asc <;> simp [keyLe] at h ⊢ <;> exact h
  · intro a
    exact filter_insertionSort_eq _ (keyEq key a)
      (fun x y hx hy =>
        keyLe_of_keyEq lc hR key asc x y (keyEq_trans_left key a x y hx hy)) rows

/-- C5 witness: sorting the two sample rows by `sales` ascending. -/
theorem sortRows_spec_witness :
    List.Perm (sortRows strLe .sales true [rowA, rowB]) [rowA, rowB] ∧
    (sortRows strLe .sales true [rowA, rowB]).Pairwise (fun a b => a.sales ≤ b.sales) ∧
    (sortRows strLe .sales true [rowA, rowB]).filter (keyEq .sales rowA)
      = [rowA, rowB].filter (keyEq .sales rowA) :=
  ⟨(sortRows_spec strLe strLe_refl strLe_trans strLe_total .sales true [rowA, rowB]).1,
   (sortRows_spec strLe strLe_refl strLe_trans strLe_total .sales true [rowA, rowB]).2.1,
   (sortRows_spec strLe strLe_refl strLe_trans strLe_total .sales true [rowA, rowB]).2.2 rowA⟩

/-- C6: a click on column `k` flips `sortDirection[k]` (so clicking the
same column twice in a row flips its direction); a first click on a column
whose direction is still the default (`undefined`, falsy) sorts ascending;
clicks on other columns, fetches and searches leave `sortDirection[k]`
untouched, so returning to `k` toggles from `k`'s own last direction. -/
theorem sortClick_direction_spec :
    ∀ (lc : String → String → Bool),
      (∀ x y z, lc x y = true → lc y z = true → lc x z = true) →
      (∀ x y, lc x y = true ∨ lc y x = true) →
      ∀ (s : UIState) (k : SortField),
        ((step lc s (.sortClick k)).sortDirection k = !(s.sortDirection k)) ∧
        (∀ k', k' ≠ k → (step lc s (.sortClick k)).sortDirection k' = s.sortDirection k') ∧
        (s.sortDirection k = false →
          ((step lc s (.sortClick k)).rendered).Pairwise
            fun a b => keyLe lc k true a b = true) ∧
        (∀ es : List UIEvent,
          (∀ k', UIEvent.sortClick k' ∈ es → k' ≠ k) →
          (run lc s es).sortDirection k = s.sortDirection k) := by
  intro lc hT hTot s k
  refine ⟨?_, ?_, ?_, ?_⟩
  · simp [step]
  · intro k' hk
    simp [step, hk]
  · intro h0
    have hr : (step lc s (.sortClick k)).rendered = sortRows lc k true s.fullTableData := by
      simp [step, h0]
    rw [hr]
    haveI : IsTotal Row fun a b => keyLe lc k true a b = true := ⟨keyLe_total lc hTot k true⟩
    haveI : IsTrans Row fun a b => keyLe lc k true a b = true := ⟨keyLe_trans lc hT k true⟩
    exact List.sorted_insertionSort _ _
  · intro es
    induction es generalizing s with
    | nil => intro _; rfl
    | cons e t ih =>
      intro h
      have hstep : (step lc s e).sortDirection k = s.sortDirection k := by
        cases e with
        | fetchSuccess d => rfl
        | searchInput term => rfl
        | sortClick k' =>
          have hk' : k' ≠ k := h k' (List.mem_cons_self _ _)
          simp [step, Ne.symm hk']
      have hrest := ih (step lc s e) fun k' hm => h k' (List.mem_cons_of_mem _ hm)
      calc (run lc s (e :: t)).sortDirection k
          = (run lc (step lc s e) t).sortDirection k := rfl
        _ = (step lc s e).sortDirection k := hrest
        _ = s.sortDirection k := hstep

/-- C6 witness: clicking `sales` from the initial state, the independence
of `date`'s direction, the ascending first sort, and preservation of
`sales`'s direction across a click on `date`. -/
theorem sortClick_direction_spec_witness :
    ((step strLe initState (.sortClick .sales)).sortDirection .sales
      = !(initState.sortDirection .sales)) ∧
    ((step strLe initState (.sortClick .sales)).sortDirection .date
      = initState.sortDirection .date) ∧
    ((step strLe initState (.sortClick .sales)).rendered).Pairwise
      (fun a b => keyLe strLe .sales true a b = true) ∧
    ((run strLe initState [.sortClick .date]).sortDirection .sales
      = initState.sortDirection .sales) :=
  ⟨(sortClick_direction_spec strLe strLe_trans strLe_total initState .sales).1,
   (sortClick_direction_spec strLe strLe_trans strLe_total initState .sales).2.1
     .date (by simp),
   (sortClick_direction_spec strLe strLe_trans strLe_total initState .sales).2.2.1 rfl,
   (sortClick_direction_spec strLe strLe_trans strLe_total initState .sales).2.2.2
     [.sortClick .date] (by simp)⟩

/-- C7: with pairwise-distinct sales values, sorting by `sales` ascending
and then clicking `sales` again (which sorts the now-cached ascending list
descending) renders exactly the reverse of the ascending order. -/
theorem toggle_reverses_sorted :
    ∀ (lc : String → String → Bool) (s : UIState) (rows : List Row),
      s.sortDirection .sales = false →
      (rows.map Row.sales).Nodup →
      (run lc s [.fetchSuccess rows, .sortClick .sales, .sortClick .sales]).rendered
        = ((run lc s [.fetchSuccess rows, .sortClick .sales]).rendered).reverse := by
  intro lc s rows h0 hnd
  have hred : (run lc s [.fetchSuccess rows, .sortClick .sales, .sortClick .sales]).rendered
      = sortRows lc .sales false (sortRows lc .sales true rows) := by
    simp [run, step, h0]
  have hred2 : (run lc s [.fetchSuccess rows, .sortClick .sales]).rendered
      = sortRows lc .sales true rows := by
    simp [run, step, h0]
  rw [hred, hred2]
  haveI : IsTotal Row fun a b => keyLe lc .sales true a b = true :=
    ⟨fun a b => by simp [keyLe]; omega⟩
  haveI : IsTrans Row fun a b => keyLe lc .sales true a b = true :=
    ⟨fun a b c h1 h2 => by simp [keyLe] at h1 h2 ⊢; omega⟩
  haveI : IsTotal Row fun a b => keyLe lc .sales false a b = true :=
    ⟨fun a b => by simp [keyLe]; omega⟩
  haveI : IsTrans Row fun a b => keyLe lc .sales false a b = true :=
    ⟨fun a b c h1 h2 => by simp [keyLe] at h1 h2 ⊢; omega⟩
  have hAperm : List.Perm (sortRows lc .sales true rows) rows :=
    List.perm_insertionSort _ rows
  have hA : (sortRows lc .sales true rows).Pairwise fun a b => a.sales ≤ b.sales := by
    have hs : (sortRows lc .sales true rows).Pairwise
        fun a b => keyLe lc .sales true a b = true := List.sorted_insertionSort _ rows
    refine hs.imp ?_
    intro a b h
    simpa [keyLe] using h
  have hndA : ((sortRows lc .sales true rows).map Row.sales).Nodup :=
    ((hAperm.map Row.sales).nodup_iff).mpr hnd
  have hBperm : List.Perm (sortRows lc .sales false (sortRows lc .sales true rows))
      (sortRows lc .sales true rows) := List.perm_insertionSort _ _
  have hB : (sortRows lc .sales false (sortRows lc .sales true rows)).Pairwise
      fun a b => b.sales ≤ a.sales := by
    have hs : (sortRows lc .sales false (sortRows lc .sales true rows)).Pairwise
        fun a b => keyLe lc .sales false a b = true := List.sorted_insertionSort _ _
    refine hs.imp ?_
    intro a b h
    simpa [keyLe] using h
  have hndB : ((sortRows lc .sales false (sortRows lc .sales true rows)).map Row.sales).Nodup :=
    ((hBperm.map Row.sales).nodup_iff).mpr hndA
  have hndR : (((sortRows lc .sales true rows).reverse).map Row.sales).Nodup := by
    rw [List.map_reverse, List.nodup_reverse]
    exact hndA
  have hR : ((sortRows lc .sales true rows).reverse).Pairwise
      fun a b => b.sales ≤ a.sales := List.pairwise_reverse.mpr hA
  have hBs := pairwise_sales_strict_of_nodup _ hndB hB
  have hRs := pairwise_sales_strict_of_nodup _ hndR hR
  have hBR : List.Perm (sortRows lc .sales false (sortRows lc .sales true rows))
      ((sortRows lc .sales true rows).reverse) :=
    hBperm.trans (List.reverse_perm _).symm
  haveI : IsAntisymm Row fun a b => b.sales < a.sales :=
    ⟨fun a b h1 h2 => absurd h2 (lt_asymm h1)⟩
  exact List.eq_of_perm_of_sorted hBR hBs hRs

/-- C9: with no explicit filter argument (the export buttons never pass
one), the query `exportData` builds for the export endpoint contains
exactly the same key/value pairs as the query `fetchAndRender` builds for
the stats endpoint: each of the four keys appears, with the corresponding
input as value, exactly when that input is non-empty. -/
theorem exportQuery_matches_statsQuery :
    ∀ (sd ed rg pd : String),
      (∀ kv, kv ∈ exportQuery rg pd sd ed ↔ kv ∈ statsQuery sd ed rg pd none none) ∧
      (∀ v, ("start_date", v) ∈ exportQuery rg pd sd ed ↔ sd ≠ "" ∧ v = sd) ∧
      (∀ v, ("end_date", v) ∈ exportQuery rg pd sd ed ↔ ed ≠ "" ∧ v = ed) ∧
      (∀ v, ("region", v) ∈ exportQuery rg pd sd ed ↔ rg ≠ "" ∧ v = rg) ∧
      (∀ v, ("product", v) ∈ exportQuery rg pd sd ed ↔ pd ≠ "" ∧ v = pd) := by
  intro sd ed rg pd
  by_cases h1 : sd = "" <;> by_cases h2 : ed = "" <;>
    by_cases h3 : rg = "" <;> by_cases h4 : pd = "" <;>
      refine ⟨fun kv => ?_, fun v => ?_, fun v => ?_, fun v => ?_, fun v => ?_⟩ <;>
        simp [exportQuery, statsQuery, appendIf, h1, h2, h3, h4, Prod.ext_iff] <;>
          tauto

/-- C9 witness: a filter state with a start date and a region set. -/
theorem exportQuery_matches_statsQuery_witness :
    (("region", "North") ∈ exportQuery "North" "" "2024-01-01" ""
      ↔ ("region", "North") ∈ statsQuery "2024-01-01" "" "North" "" none none) ∧
    (("start_date", "2024-01-01") ∈ exportQuery "North" "" "2024-01-01" ""
      ↔ ("2024-01-01" : String) ≠ "" ∧ "2024-01-01" = "2024-01-01") ∧
    (("product", "x") ∈ exportQuery "North" "" "2024-01-01" ""
      ↔ ("" : String) ≠ "" ∧ "x" = "") :=
  ⟨(exportQuery_matches_statsQuery "2024-01-01" "" "North" "").1 ("region", "North"),
   (exportQuery_matches_statsQuery "2024-01-01" "" "North" "").2.1 "2024-01-01",
   (exportQuery_matches_statsQuery "2024-01-01" "" "North" "").2.2.2.2 "x"⟩

/-- C7 witness: the two sample rows (sales 10 and 5). -/
theorem toggle_reverses_sorted_witness :
    initState.sortDirection SortField.sales = false ∧
    ([rowA, rowB].map Row.sales).Nodup ∧
    (run strLe initState
        [.fetchSuccess [rowA, rowB], .sortClick .sales, .sortClick .sales]).rendered
      = ((run strLe initState [.fetchSuccess [rowA, rowB], .sortClick .sales]).rendered).reverse :=
  ⟨rfl, by decide, toggle_reverses_sorted strLe initState [rowA, rowB] rfl (by decide)⟩

end Dashboard
